import Mathlib

/-!
Shallow embedding of `elevator_management_system.py`.

Numbers: Python floats are modelled by `ℚ` (all arithmetic in the program is
exact on the inputs of interest), Python ints by `ℕ`/`ℤ`.  A Python float
division that can raise `ZeroDivisionError` is modelled by an explicit guard
returning `none`.  The sentinel `float('inf')` used by `schedule_elevator`
is modelled by `⊤ : WithTop ℚ`.
-/

namespace EMS

/-! ### Fixed constants (lines 61-64 and 166-167 of the source) -/

def avg_stop_time : ℚ := 10

def elevator_speed : ℚ := 3/2

def peak_period : ℚ := 300

def default_capacity : ℕ := 12

/-! ### Estimator: `calculate_elevator_requirements` (lines 59-100),
    each assignment lifted to a definition. -/

def travel_time (floors : ℕ) (floor_height : ℚ) : ℚ :=
  ((floors : ℚ) - 1) * floor_height / elevator_speed * 2

def stops (floors : ℕ) : ℕ := floors / 2

def stop_time (floors : ℕ) : ℚ := (stops floors : ℚ) * avg_stop_time

def avg_trip_time (floors : ℕ) (floor_height : ℚ) : ℚ :=
  travel_time floors floor_height + stop_time floors

/-- Line 73: `preferred_capacity if preferred_capacity else default_capacity`
(Python truthiness: `None` and `0` both fall back to the default). -/
def elevator_capacity_of (preferred_capacity : Option ℕ) : ℕ :=
  match preferred_capacity with
  | some c => if c ≠ 0 then c else default_capacity
  | none => default_capacity

def trips_per_elevator_of (floors : ℕ) (floor_height : ℚ) : ℚ :=
  peak_period / avg_trip_time floors floor_height

def people_per_elevator_of (floors : ℕ) (floor_height : ℚ)
    (preferred_capacity : Option ℕ) : ℚ :=
  trips_per_elevator_of floors floor_height * (elevator_capacity_of preferred_capacity : ℚ)

structure Summary where
  floors : ℕ
  total_people : ℕ
  max_wait_time : ℚ
  floor_height : ℚ
  elevator_capacity : ℕ
  avg_trip_time : ℚ
  trips_per_elevator : ℚ
  people_per_elevator : ℚ
  elevators_required : ℤ
deriving DecidableEq

/-- Lines 59-100.  The two float divisions with a non-constant divisor
(`peak_period / avg_trip_time`, line 76, and the floor division by
`people_per_elevator`, line 80) raise `ZeroDivisionError` in Python when the
divisor is zero; that is modelled by returning `none`.  Line 80's
`int(-(-total_people // people_per_elevator))` is modelled by
`-⌊-total_people / people_per_elevator⌋`. -/
def calculate_elevator_requirements (floors total_people : ℕ)
    (max_wait_time floor_height : ℚ) (preferred_capacity : Option ℕ) :
    Option Summary :=
  if avg_trip_time floors floor_height = 0 then none
  else if people_per_elevator_of floors floor_height preferred_capacity = 0 then none
  else some
    { floors := floors
      total_people := total_people
      max_wait_time := max_wait_time
      floor_height := floor_height
      elevator_capacity := elevator_capacity_of preferred_capacity
      avg_trip_time := avg_trip_time floors floor_height
      trips_per_elevator := trips_per_elevator_of floors floor_height
      people_per_elevator := people_per_elevator_of floors floor_height preferred_capacity
      elevators_required :=
        -Int.floor (-(total_people : ℚ) /
          people_per_elevator_of floors floor_height preferred_capacity) }

/-! ### The `Elevator` class (lines 122-151) -/

structure Elevator where
  eid : ℕ
  capacity : ℕ
  current_floor : ℤ
  direction : ℤ
  passengers : ℕ
  stops : Finset ℤ
  idle : Bool
deriving DecidableEq

/-- Lines 123-130: `__init__` (direction 0, no passengers, no stops, idle). -/
def Elevator.init (eid capacity : ℕ) (current_floor : ℤ) : Elevator :=
  { eid := eid
    capacity := capacity
    current_floor := current_floor
    direction := 0
    passengers := 0
    stops := ∅
    idle := true }

/-- Lines 132-136: `estimated_arrival` — pure. -/
def Elevator.estimated_arrival (e : Elevator) (request_floor : ℤ)
    (avg_stop_time floor_height elevator_speed : ℚ) : ℚ :=
  let travel_floors : ℤ := |e.current_floor - request_floor|
  let travel_time : ℚ := (travel_floors : ℚ) * floor_height / elevator_speed
  travel_time + (if ¬ e.idle then avg_stop_time else 0)

/-- Lines 138-141: `assign_request`. -/
def Elevator.assign_request (e : Elevator) (request_floor : ℤ)
    (direction : String) : Elevator :=
  { e with
    stops := insert request_floor e.stops
    direction := if direction = "up" then 1 else -1
    idle := false }

/-- Lines 143-148: `move_to`. -/
def Elevator.move_to (e : Elevator) (request_floor : ℤ) : Elevator :=
  let e' := { e with
    current_floor := request_floor
    stops := e.stops.erase request_floor }
  if e'.stops = ∅ then { e' with idle := true, direction := 0 } else e'

/-! ### The dispatcher: `schedule_elevator` (lines 153-163) -/

/-- Line 158: the eligibility test
`elev.idle or (elev.direction == (1 if direction == "up" else -1))`. -/
def eligible (e : Elevator) (direction : String) : Prop :=
  e.idle = true ∨ e.direction = (if direction = "up" then 1 else -1)

instance (e : Elevator) (d : String) : Decidable (eligible e d) :=
  inferInstanceAs (Decidable (_ ∨ _))

/-- Body of the `for` loop of lines 157-162, acting on the accumulator
`(best_elevator, best_eta)`. -/
def scheduleStep (request_floor : ℤ) (direction : String)
    (avg_stop_time floor_height elevator_speed : ℚ)
    (best : Option Elevator × WithTop ℚ) (elev : Elevator) :
    Option Elevator × WithTop ℚ :=
  if eligible elev direction then
    let eta := elev.estimated_arrival request_floor avg_stop_time floor_height elevator_speed
    if (eta : WithTop ℚ) < best.2 then (some elev, (eta : WithTop ℚ)) else best
  else best

/-- Lines 153-163: `best_elevator = None`, `best_eta = float('inf')`,
then the loop. -/
def schedule_elevator (elevators : List Elevator) (request_floor : ℤ)
    (direction : String) (avg_stop_time floor_height elevator_speed : ℚ) :
    Option Elevator × WithTop ℚ :=
  elevators.foldl
    (scheduleStep request_floor direction avg_stop_time floor_height elevator_speed)
    (none, ⊤)

/-! ### State-transformer translations, for the frame property.
    Each Python method call on an object may in principle mutate it; the
    translation returns the post-state of the receiver explicitly so that
    "no mutation" becomes a provable statement rather than an assumption. -/

/-- Lines 132-136 as a state transformer: the body assigns nothing to
`self`, so the returned receiver is the statement-by-statement result of
executing the body. -/
def Elevator.estimated_arrival_st (e : Elevator) (request_floor : ℤ)
    (avg_stop_time floor_height elevator_speed : ℚ) : ℚ × Elevator :=
  let travel_floors : ℤ := |e.current_floor - request_floor|
  let travel_time : ℚ := (travel_floors : ℚ) * floor_height / elevator_speed
  (travel_time + (if ¬ e.idle then avg_stop_time else 0), e)

/-- Lines 153-163 as a state transformer: the iterated list is rebuilt from
the post-states of the receivers of the `estimated_arrival` calls, so the
output list records any mutation the loop could have performed. -/
def schedule_elevator_st (elevators : List Elevator) (request_floor : ℤ)
    (direction : String) (avg_stop_time floor_height elevator_speed : ℚ) :
    (Option Elevator × WithTop ℚ) × List Elevator :=
  elevators.foldl
    (fun acc elev =>
      if eligible elev direction then
        let r := elev.estimated_arrival_st request_floor avg_stop_time floor_height
          elevator_speed
        ((if (r.1 : WithTop ℚ) < acc.1.2 then (some r.2, (r.1 : WithTop ℚ)) else acc.1),
          acc.2 ++ [r.2])
      else (acc.1, acc.2 ++ [elev]))
    ((none, ⊤), [])

/-! ### One iteration of the scheduling loop (lines 174-187) -/

/-- Lines 174-187: after the bounds checks on the origin and destination
floors, the pair passed verbatim to both `schedule_elevator` (line 183) and
`assign_request` (line 187) is `(request_floor, direction)`; a failed check
restarts the iteration (modelled by `none`). -/
def scheduling_loop_request (floors request_floor : ℕ) (direction : String)
    (dest_floor : ℕ) : Option (ℕ × String) :=
  if ¬ (1 ≤ request_floor ∧ request_floor ≤ floors) then none
  else if ¬ (1 ≤ dest_floor ∧ dest_floor ≤ floors) ∨ dest_floor = request_floor then none
  else some (request_floor, direction)

/-! ### The documented state invariant -/

/-- Invariant of §3 of the spec: `idle` ⇔ `direction == 0` ⇔ no pending stops. -/
def Elevator.inv (e : Elevator) : Prop :=
  (e.idle = true ↔ e.direction = 0) ∧ (e.direction = 0 ↔ e.stops = ∅)

instance (e : Elevator) : Decidable e.inv :=
  inferInstanceAs (Decidable (_ ∧ _))

/-! ### Estimator lemmas -/

lemma avg_trip_time_ge {floors : ℕ} {fh : ℚ} (h2 : 2 ≤ floors) (hfh : 0 < fh) :
    10 ≤ avg_trip_time floors fh := by
  unfold avg_trip_time travel_time stop_time stops avg_stop_time elevator_speed
  have h1 : (1 : ℚ) ≤ (floors : ℚ) - 1 := by
    have : (2 : ℚ) ≤ (floors : ℚ) := by exact_mod_cast h2
    linarith
  have htt : 0 ≤ ((floors : ℚ) - 1) * fh / (3/2) * 2 := by
    have hpos : 0 ≤ ((floors : ℚ) - 1) * fh := mul_nonneg (by linarith) hfh.le
    have := div_nonneg hpos (by norm_num : (0:ℚ) ≤ 3/2)
    linarith
  have hstops : 1 ≤ floors / 2 := (Nat.le_div_iff_mul_le (by norm_num)).mpr (by omega)
  have hst : (10 : ℚ) ≤ ((floors / 2 : ℕ) : ℚ) * 10 := by
    have h1' : (1 : ℚ) ≤ ((floors / 2 : ℕ) : ℚ) := by exact_mod_cast hstops
    nlinarith
  linarith

lemma avg_trip_time_pos {floors : ℕ} {fh : ℚ} (h2 : 2 ≤ floors) (hfh : 0 < fh) :
    0 < avg_trip_time floors fh :=
  lt_of_lt_of_le (by norm_num) (avg_trip_time_ge h2 hfh)

lemma elevator_capacity_pos (pc : Option ℕ) : 0 < elevator_capacity_of pc := by
  unfold elevator_capacity_of default_capacity
  cases pc with
  | none => norm_num
  | some c =>
    by_cases hc : c = 0
    · simp [hc]
    · simpa [hc] using Nat.pos_of_ne_zero hc

lemma people_per_elevator_pos {floors : ℕ} {fh : ℚ} (h2 : 2 ≤ floors) (hfh : 0 < fh)
    (pc : Option ℕ) : 0 < people_per_elevator_of floors fh pc := by
  unfold people_per_elevator_of trips_per_elevator_of peak_period
  have hatt : 0 < avg_trip_time floors fh := avg_trip_time_pos h2 hfh
  have htr : 0 < (300 : ℚ) / avg_trip_time floors fh := div_pos (by norm_num) hatt
  have hc : (0 : ℚ) < (elevator_capacity_of pc : ℚ) := by
    exact_mod_cast elevator_capacity_pos pc
  exact mul_pos htr hc

lemma calculate_eq_some {floors tp : ℕ} {mwt fh : ℚ} {pc : Option ℕ}
    (h2 : 2 ≤ floors) (hfh : 0 < fh) :
    calculate_elevator_requirements floors tp mwt fh pc = some
      { floors := floors
        total_people := tp
        max_wait_time := mwt
        floor_height := fh
        elevator_capacity := elevator_capacity_of pc
        avg_trip_time := avg_trip_time floors fh
        trips_per_elevator := trips_per_elevator_of floors fh
        people_per_elevator := people_per_elevator_of floors fh pc
        elevators_required :=
          -Int.floor (-(tp : ℚ) / people_per_elevator_of floors fh pc) } := by
  unfold calculate_elevator_requirements
  rw [if_neg (ne_of_gt (avg_trip_time_pos h2 hfh)),
    if_neg (ne_of_gt (people_per_elevator_pos h2 hfh pc))]

lemma neg_floor_neg_div (tp : ℕ) (q : ℚ) :
    -Int.floor (-(tp : ℚ) / q) = ⌈(tp : ℚ) / q⌉ := by
  rw [neg_div, Int.floor_neg, neg_neg]

lemma calculate_formula {floors tp : ℕ} {mwt fh : ℚ} {pc : Option ℕ}
    (h2 : 2 ≤ floors) (hfh : 0 < fh) (hpc : ∀ c, pc = some c → 0 < c) :
    ∃ s, calculate_elevator_requirements floors tp mwt fh pc = some s ∧
      s.elevator_capacity = pc.getD 12 ∧
      s.avg_trip_time = ((floors : ℚ) - 1) * fh / (3/2) * 2 + ((floors / 2 : ℕ) : ℚ) * 10 ∧
      s.trips_per_elevator = 300 / s.avg_trip_time ∧
      s.people_per_elevator = s.trips_per_elevator * (s.elevator_capacity : ℚ) ∧
      s.elevators_required = ⌈(tp : ℚ) / s.people_per_elevator⌉ := by
  refine ⟨_, calculate_eq_some h2 hfh, ?_, ?_, ?_, ?_, ?_⟩
  · cases pc with
    | none => rfl
    | some c =>
      have hc : c ≠ 0 := Nat.pos_iff_ne_zero.mp (hpc c rfl)
      simp [elevator_capacity_of, hc]
  · unfold avg_trip_time travel_time stop_time stops avg_stop_time elevator_speed
    norm_num
  · rfl
  · rfl
  · exact neg_floor_neg_div tp _

/-! ### Claim theorems -/

/-- Claim C3: for floors ≥ 2, positive people count, positive floor height and
an optional positive preferred capacity, `calculate_elevator_requirements`
yields capacity `preferred_capacity` when provided (else 12), and
`elevators_required = ⌈total_people / people_per_elevator⌉` with
`avg_trip_time = (floors-1)·floor_height/1.5·2 + 10·(floors//2)`,
`trips_per_elevator = 300 / avg_trip_time`,
`people_per_elevator = trips_per_elevator · capacity`; in particular for
floors = 10, total_people = 300, floor_height = 3, no preferred capacity, it
yields `avg_trip_time = 86` and `elevators_required = 8`. -/
theorem claims_C3 :
    (∀ (floors tp : ℕ) (mwt fh : ℚ) (pc : Option ℕ),
      2 ≤ floors → 0 < tp → 0 < fh → (∀ c, pc = some c → 0 < c) →
      ∃ s, calculate_elevator_requirements floors tp mwt fh pc = some s ∧
        s.elevator_capacity = pc.getD 12 ∧
        s.avg_trip_time =
          ((floors : ℚ) - 1) * fh / (3/2) * 2 + ((floors / 2 : ℕ) : ℚ) * 10 ∧
        s.trips_per_elevator = 300 / s.avg_trip_time ∧
        s.people_per_elevator = s.trips_per_elevator * (s.elevator_capacity : ℚ) ∧
        s.elevators_required = ⌈(tp : ℚ) / s.people_per_elevator⌉) ∧
    (∀ mwt : ℚ, ∃ s, calculate_elevator_requirements 10 300 mwt 3 none = some s ∧
      s.avg_trip_time = 86 ∧ s.elevators_required = 8) := by
  constructor
  · intro floors tp mwt fh pc h2 _ hfh hpc
    exact calculate_formula h2 hfh hpc
  · intro mwt
    refine ⟨_, calculate_eq_some (by norm_num) (by norm_num), ?_, ?_⟩
    · unfold avg_trip_time travel_time stop_time stops avg_stop_time elevator_speed
      norm_num
    · show -Int.floor (-(300 : ℕ) / people_per_elevator_of 10 3 none) = 8
      have hppe : people_per_elevator_of 10 3 none = 1800/43 := by
        unfold people_per_elevator_of trips_per_elevator_of peak_period
          elevator_capacity_of default_capacity avg_trip_time travel_time stop_time
          stops avg_stop_time elevator_speed
        norm_num
      rw [hppe]
      have : (-(300 : ℕ) : ℚ) / (1800/43) = -43/6 := by norm_num
      rw [this]
      have hfl : Int.floor (-43/6 : ℚ) = -8 := by
        rw [Int.floor_eq_iff]
        norm_num
      rw [hfl]
      norm_num

/-- Witness for C3 at floors = 10, total_people = 300, max_wait_time = 1,
floor_height = 3, no preferred capacity. -/
theorem claims_C3_witness :
    ∃ s, calculate_elevator_requirements 10 300 1 3 none = some s ∧
      s.elevator_capacity = (none : Option ℕ).getD 12 ∧
      s.avg_trip_time = ((10 : ℚ) - 1) * 3 / (3/2) * 2 + ((10 / 2 : ℕ) : ℚ) * 10 ∧
      s.trips_per_elevator = 300 / s.avg_trip_time ∧
      s.people_per_elevator = s.trips_per_elevator * (s.elevator_capacity : ℚ) ∧
      s.elevators_required = ⌈(300 : ℚ) / s.people_per_elevator⌉ :=
  claims_C3.1 10 300 1 3 none (by norm_num) (by norm_num) (by norm_num)
    (fun c hc => by cases hc)

/-- Claim C5: for floors ≥ 2, positive people count and positive floor height
every division in `calculate_elevator_requirements` has a nonzero divisor
(`avg_trip_time ≥ 10` and `people_per_elevator > 0`) and the function is
total; for floors = 1 the average trip time is 0 and the computation is
undefined (division by zero, modelled as `none`). -/
theorem claims_C5 :
    (∀ (floors tp : ℕ) (mwt fh : ℚ) (pc : Option ℕ),
      2 ≤ floors → 0 < tp → 0 < fh →
      10 ≤ avg_trip_time floors fh ∧ 0 < people_per_elevator_of floors fh pc ∧
      ∃ s, calculate_elevator_requirements floors tp mwt fh pc = some s) ∧
    (∀ (tp : ℕ) (mwt fh : ℚ) (pc : Option ℕ), 0 < fh →
      avg_trip_time 1 fh = 0 ∧
      calculate_elevator_requirements 1 tp mwt fh pc = none) := by
  constructor
  · intro floors tp mwt fh pc h2 _ hfh
    exact ⟨avg_trip_time_ge h2 hfh, people_per_elevator_pos h2 hfh pc,
      _, calculate_eq_some h2 hfh⟩
  · intro tp mwt fh pc _
    have hatt : avg_trip_time 1 fh = 0 := by
      unfold avg_trip_time travel_time stop_time stops avg_stop_time elevator_speed
      norm_num
    refine ⟨hatt, ?_⟩
    unfold calculate_elevator_requirements
    rw [if_pos hatt]

/-- Witness for C5 at floors = 10 resp. floors = 1. -/
theorem claims_C5_witness :
    (10 ≤ avg_trip_time 10 3 ∧ 0 < people_per_elevator_of 10 3 none ∧
      ∃ s, calculate_elevator_requirements 10 5 1 3 none = some s) ∧
    (avg_trip_time 1 3 = 0 ∧
      calculate_elevator_requirements 1 5 1 3 none = none) :=
  ⟨claims_C5.1 10 5 1 3 none (by norm_num) (by norm_num) (by norm_num),
    claims_C5.2 5 1 3 none (by norm_num)⟩

/-- Claim C2 fails on the code: with 5 floors, origin floor 5 (the top
floor), entered direction "up" and destination 3, the pair handed to
`schedule_elevator` and `assign_request` carries direction "up", not the
allegedly forced "down" — the loop performs no boundary forcing at all. -/
theorem claims_C2_counterexample :
    scheduling_loop_request 5 5 "up" 3 = some (5, "up") ∧
    some ((5 : ℕ), ("up" : String)) ≠ some (5, "down") := by
  constructor
  · rfl
  · decide

/-- Claim C2 amended: the scheduling loop never alters the entered
direction — for every input, one iteration either rejects the request or
passes exactly the entered origin floor and direction on to
`schedule_elevator` and `assign_request` (no boundary-floor forcing). -/
theorem claims_C2_amended :
    ∀ (floors request_floor : ℕ) (direction : String) (dest_floor : ℕ),
      scheduling_loop_request floors request_floor direction dest_floor = none ∨
      scheduling_loop_request floors request_floor direction dest_floor =
        some (request_floor, direction) := by
  intro floors rf d df
  unfold scheduling_loop_request
  split_ifs <;> simp

/-- Claim C4: the invariant (idle ⇔ direction = 0 ⇔ pending stops empty)
holds for a freshly constructed elevator and is preserved by
`assign_request` and `move_to`; `estimated_arrival` does not mutate the
elevator at all. -/
theorem claims_C4 :
    (∀ (eid capacity : ℕ) (cf : ℤ), (Elevator.init eid capacity cf).inv) ∧
    (∀ (e : Elevator) (rf : ℤ) (d : String), e.inv → (e.assign_request rf d).inv) ∧
    (∀ (e : Elevator) (rf : ℤ), e.inv → (e.move_to rf).inv) ∧
    (∀ (e : Elevator) (rf : ℤ) (ast fh sp : ℚ),
      (e.estimated_arrival_st rf ast fh sp).2 = e) := by
  refine ⟨?_, ?_, ?_, ?_⟩
  · intro eid c cf
    constructor <;> simp [Elevator.init]
  · intro e rf d _
    constructor
    · simp [Elevator.assign_request]
      split_ifs <;> norm_num
    · simp [Elevator.assign_request]
      split_ifs <;> norm_num
  · intro e rf h
    unfold Elevator.move_to
    by_cases hs : e.stops.erase rf = ∅
    · simp only [hs, if_pos]
      constructor <;> simp [hs]
    · simp only [hs, if_neg, ite_false]
      have hne : e.stops ≠ ∅ := by
        intro h0
        exact hs (by simp [h0])
      have hdir : e.direction ≠ 0 := fun h0 => hne (h.2.mp h0)
      have hidle : e.idle ≠ true := fun h0 => hdir (h.1.mp h0)
      constructor
      · simp [hidle, hdir]
      · simp [hdir, hs]
  · intro e rf ast fh sp
    rfl

/-- Witness for C4: running the preserved operations from a freshly
constructed elevator. -/
theorem claims_C4_witness :
    (Elevator.init 1 10 1).inv ∧
    ((Elevator.init 1 10 1).assign_request 5 "up").inv ∧
    (((Elevator.init 1 10 1).assign_request 5 "up").move_to 5).inv ∧
    ((Elevator.init 1 10 1).estimated_arrival_st 5 10 3 (3/2)).2 =
      Elevator.init 1 10 1 :=
  ⟨claims_C4.1 1 10 1,
    claims_C4.2.1 _ 5 "up" (claims_C4.1 1 10 1),
    claims_C4.2.2.1 _ 5 (claims_C4.2.1 _ 5 "up" (claims_C4.1 1 10 1)),
    claims_C4.2.2.2 _ 5 10 3 (3/2)⟩

/-- Claim C7: from an elevator with no pending stops, `assign_request o dir`
followed by `move_to o` and `move_to d` ends idle, with direction 0, no
pending stops, and current floor `d`. -/
theorem claims_C7 :
    ∀ (e : Elevator) (o d : ℤ) (dir : String), e.stops = ∅ →
      (((e.assign_request o dir).move_to o).move_to d).idle = true ∧
      (((e.assign_request o dir).move_to o).move_to d).direction = 0 ∧
      (((e.assign_request o dir).move_to o).move_to d).stops = ∅ ∧
      (((e.assign_request o dir).move_to o).move_to d).current_floor = d := by
  intro e o d dir h
  have h1 : (insert o e.stops).erase o = ∅ := by
    rw [h]
    simp
  simp [Elevator.assign_request, Elevator.move_to, h1]

/-- Witness for C7 on a fresh elevator, origin 5, destination 8. -/
theorem claims_C7_witness :
    (Elevator.init 1 10 1).stops = ∅ ∧
    ((((Elevator.init 1 10 1).assign_request 5 "up").move_to 5).move_to 8).idle = true ∧
    ((((Elevator.init 1 10 1).assign_request 5 "up").move_to 5).move_to 8).direction = 0 ∧
    ((((Elevator.init 1 10 1).assign_request 5 "up").move_to 5).move_to 8).stops = ∅ ∧
    ((((Elevator.init 1 10 1).assign_request 5 "up").move_to 5).move_to 8).current_floor
      = 8 :=
  ⟨rfl, claims_C7 (Elevator.init 1 10 1) 5 8 "up" rfl⟩

/-- Claim C8: with the idle flag fixed and positive floor height and speed,
`estimated_arrival` is monotone in the distance `|current_floor -
request_floor|`. -/
theorem claims_C8 :
    ∀ (e₁ e₂ : Elevator) (rf₁ rf₂ : ℤ) (ast fh sp : ℚ),
      e₁.idle = e₂.idle → 0 < fh → 0 < sp →
      |e₁.current_floor - rf₁| ≤ |e₂.current_floor - rf₂| →
      e₁.estimated_arrival rf₁ ast fh sp ≤ e₂.estimated_arrival rf₂ ast fh sp := by
  intro e₁ e₂ rf₁ rf₂ ast fh sp hidle hfh hsp hd
  unfold Elevator.estimated_arrival
  simp only [hidle]
  have hcast : ((|e₁.current_floor - rf₁| : ℤ) : ℚ) ≤
      ((|e₂.current_floor - rf₂| : ℤ) : ℚ) := by exact_mod_cast hd
  have hmul : ((|e₁.current_floor - rf₁| : ℤ) : ℚ) * fh ≤
      ((|e₂.current_floor - rf₂| : ℤ) : ℚ) * fh :=
    mul_le_mul_of_nonneg_right hcast hfh.le
  exact add_le_add ((div_le_div_iff_of_pos_right hsp).mpr hmul) le_rfl

/-- Witness for C8: idle elevator at floor 1, requests at floors 2 and 5. -/
theorem claims_C8_witness :
    (Elevator.init 1 10 1).idle = (Elevator.init 2 10 1).idle ∧
    (0 : ℚ) < 3 ∧ (0 : ℚ) < 3/2 ∧
    |(Elevator.init 1 10 1).current_floor - 2| ≤
      |(Elevator.init 2 10 1).current_floor - 5| ∧
    (Elevator.init 1 10 1).estimated_arrival 2 10 3 (3/2) ≤
      (Elevator.init 2 10 1).estimated_arrival 5 10 3 (3/2) :=
  ⟨rfl, by norm_num, by norm_num, by decide,
    claims_C8 (Elevator.init 1 10 1) (Elevator.init 2 10 1) 2 5 10 3 (3/2)
      rfl (by norm_num) (by norm_num) (by decide)⟩

/-- Claim C10: `assign_request` maps direction string "up" to 1 and every
other string to -1, and `schedule_elevator`'s eligibility test matches a
moving elevator's direction against the same encoding. -/
theorem claims_C10 :
    ∀ (e : Elevator) (rf : ℤ) (d : String),
      ((e.assign_request rf d).direction = 1 ↔ d = "up") ∧
      ((e.assign_request rf d).direction = -1 ↔ d ≠ "up") ∧
      (∀ e' : Elevator, eligible e' d ↔
        (e'.idle = true ∨ e'.direction = (e.assign_request rf d).direction)) := by
  intro e rf d
  by_cases hd : d = "up" <;>
    simp [Elevator.assign_request, eligible, hd]

/-! ### Fold lemmas for `schedule_elevator` -/

lemma scheduleStep_not_eligible (rf : ℤ) (dir : String) (ast fh sp : ℚ)
    (acc : Option Elevator × WithTop ℚ) (e : Elevator) (h : ¬ eligible e dir) :
    scheduleStep rf dir ast fh sp acc e = acc := by
  simp [scheduleStep, h]

lemma scheduleStep_none (rf : ℤ) (dir : String) (ast fh sp : ℚ)
    (e : Elevator) (h : eligible e dir) :
    scheduleStep rf dir ast fh sp (none, ⊤) e =
      (some e, (e.estimated_arrival rf ast fh sp : WithTop ℚ)) := by
  simp [scheduleStep, h]

lemma scheduleStep_some (rf : ℤ) (dir : String) (ast fh sp : ℚ)
    (b e : Elevator) (h : eligible e dir) :
    scheduleStep rf dir ast fh sp
        (some b, (b.estimated_arrival rf ast fh sp : WithTop ℚ)) e =
      if e.estimated_arrival rf ast fh sp < b.estimated_arrival rf ast fh sp
      then (some e, (e.estimated_arrival rf ast fh sp : WithTop ℚ))
      else (some b, (b.estimated_arrival rf ast fh sp : WithTop ℚ)) := by
  simp [scheduleStep, h, WithTop.coe_lt_coe]

lemma foldl_from_some (rf : ℤ) (dir : String) (ast fh sp : ℚ) :
    ∀ (l : List Elevator) (b : Elevator),
      ∃ b', l.foldl (scheduleStep rf dir ast fh sp)
          (some b, (b.estimated_arrival rf ast fh sp : WithTop ℚ)) =
          (some b', (b'.estimated_arrival rf ast fh sp : WithTop ℚ)) ∧
        ((b' = b ∧ ∀ e ∈ l, eligible e dir →
            b.estimated_arrival rf ast fh sp ≤ e.estimated_arrival rf ast fh sp) ∨
          (∃ l1 l2, l = l1 ++ b' :: l2 ∧ eligible b' dir ∧
            b'.estimated_arrival rf ast fh sp < b.estimated_arrival rf ast fh sp ∧
            (∀ e ∈ l1, eligible e dir →
              b'.estimated_arrival rf ast fh sp < e.estimated_arrival rf ast fh sp) ∧
            (∀ e ∈ l, eligible e dir →
              b'.estimated_arrival rf ast fh sp ≤ e.estimated_arrival rf ast fh sp))) := by
  intro l
  induction l with
  | nil =>
    intro b
    exact ⟨b, rfl, Or.inl ⟨rfl, by simp⟩⟩
  | cons e l ih =>
    intro b
    by_cases he : eligible e dir
    · rw [List.foldl_cons, scheduleStep_some rf dir ast fh sp b e he]
      by_cases hlt : e.estimated_arrival rf ast fh sp < b.estimated_arrival rf ast fh sp
      · rw [if_pos hlt]
        obtain ⟨b', heq, hcase⟩ := ih e
        refine ⟨b', heq, Or.inr ?_⟩
        rcases hcase with ⟨rfl, hall⟩ | ⟨l1, l2, rfl, helig, hlt', hbefore, hall⟩
        · refine ⟨[], l, rfl, he, hlt, by simp, ?_⟩
          intro x hx hex
          rcases List.mem_cons.mp hx with rfl | hx
          · exact le_rfl
          · exact hall x hx hex
        · refine ⟨e :: l1, l2, rfl, helig, lt_trans hlt' hlt, ?_, ?_⟩
          · intro x hx hex
            rcases List.mem_cons.mp hx with rfl | hx
            · exact hlt'
            · exact hbefore x hx hex
          · intro x hx hex
            rcases List.mem_cons.mp hx with rfl | hx
            · exact le_of_lt hlt'
            · exact hall x hx hex
      · rw [if_neg hlt]
        obtain ⟨b', heq, hcase⟩ := ih b
        refine ⟨b', heq, ?_⟩
        rcases hcase with ⟨rfl, hall⟩ | ⟨l1, l2, rfl, helig, hlt', hbefore, hall⟩
        · refine Or.inl ⟨rfl, ?_⟩
          intro x hx hex
          rcases List.mem_cons.mp hx with rfl | hx
          · exact not_lt.mp hlt
          · exact hall x hx hex
        · refine Or.inr ⟨e :: l1, l2, rfl, helig, hlt', ?_, ?_⟩
          · intro x hx hex
            rcases List.mem_cons.mp hx with rfl | hx
            · exact lt_of_lt_of_le hlt' (not_lt.mp hlt)
            · exact hbefore x hx hex
          · intro x hx hex
            rcases List.mem_cons.mp hx with rfl | hx
            · exact le_of_lt (lt_of_lt_of_le hlt' (not_lt.mp hlt))
            · exact hall x hx hex
    · rw [List.foldl_cons, scheduleStep_not_eligible rf dir ast fh sp _ e he]
      obtain ⟨b', heq, hcase⟩ := ih b
      refine ⟨b', heq, ?_⟩
      rcases hcase with ⟨rfl, hall⟩ | ⟨l1, l2, rfl, helig, hlt', hbefore, hall⟩
      · refine Or.inl ⟨rfl, ?_⟩
        intro x hx hex
        rcases List.mem_cons.mp hx with rfl | hx
        · exact absurd hex he
        · exact hall x hx hex
      · refine Or.inr ⟨e :: l1, l2, rfl, helig, hlt', ?_, ?_⟩
        · intro x hx hex
          rcases List.mem_cons.mp hx with rfl | hx
          · exact absurd hex he
          · exact hbefore x hx hex
        · intro x hx hex
          rcases List.mem_cons.mp hx with rfl | hx
          · exact absurd hex he
          · exact hall x hx hex

lemma schedule_elevator_spec (rf : ℤ) (dir : String) (ast fh sp : ℚ) :
    ∀ l : List Elevator, (∃ e ∈ l, eligible e dir) →
      ∃ b l1 l2,
        schedule_elevator l rf dir ast fh sp =
          (some b, (b.estimated_arrival rf ast fh sp : WithTop ℚ)) ∧
        l = l1 ++ b :: l2 ∧ eligible b dir ∧
        (∀ e ∈ l1, eligible e dir →
          b.estimated_arrival rf ast fh sp < e.estimated_arrival rf ast fh sp) ∧
        (∀ e ∈ l, eligible e dir →
          b.estimated_arrival rf ast fh sp ≤ e.estimated_arrival rf ast fh sp) := by
  intro l
  induction l with
  | nil =>
    rintro ⟨e, he, -⟩
    cases he
  | cons e l ih =>
    intro hexist
    by_cases he : eligible e dir
    · have hstep : schedule_elevator (e :: l) rf dir ast fh sp =
          l.foldl (scheduleStep rf dir ast fh sp)
            (some e, (e.estimated_arrival rf ast fh sp : WithTop ℚ)) := by
        unfold schedule_elevator
        rw [List.foldl_cons, scheduleStep_none rf dir ast fh sp e he]
      obtain ⟨b', heq, hcase⟩ := foldl_from_some rf dir ast fh sp l e
      rcases hcase with ⟨heb, hall⟩ | ⟨l1, l2, hldec, helig, hlt', hbefore, hall⟩
      · subst heb
        refine ⟨b', [], l, hstep.trans heq, rfl, he, by simp, ?_⟩
        intro x hx hxe
        rcases List.mem_cons.mp hx with hxb | hx
        · subst hxb
          exact le_rfl
        · exact hall x hx hxe
      · refine ⟨b', e :: l1, l2, hstep.trans heq, by rw [hldec]; rfl, helig, ?_, ?_⟩
        · intro x hx hxe
          rcases List.mem_cons.mp hx with hxb | hx
          · subst hxb
            exact hlt'
          · exact hbefore x hx hxe
        · intro x hx hxe
          rcases List.mem_cons.mp hx with hxb | hx
          · subst hxb
            exact le_of_lt hlt'
          · exact hall x (hldec ▸ hx) hxe
    · have hexist' : ∃ x ∈ l, eligible x dir := by
        obtain ⟨x, hx, hxe⟩ := hexist
        rcases List.mem_cons.mp hx with hxb | hx
        · subst hxb
          exact absurd hxe he
        · exact ⟨x, hx, hxe⟩
      obtain ⟨b, l1, l2, heq, hdec, helig, hbefore, hall⟩ := ih hexist'
      have hstep : schedule_elevator (e :: l) rf dir ast fh sp =
          schedule_elevator l rf dir ast fh sp := by
        unfold schedule_elevator
        rw [List.foldl_cons, scheduleStep_not_eligible rf dir ast fh sp _ e he]
      refine ⟨b, e :: l1, l2, hstep.trans heq, by rw [hdec]; rfl, helig, ?_, ?_⟩
      · intro x hx hxe
        rcases List.mem_cons.mp hx with hxb | hx
        · subst hxb
          exact absurd hxe he
        · exact hbefore x hx hxe
      · intro x hx hxe
        rcases List.mem_cons.mp hx with hxb | hx
        · subst hxb
          exact absurd hxe he
        · exact hall x hx hxe

lemma foldl_acc_of_not_eligible (rf : ℤ) (dir : String) (ast fh sp : ℚ) :
    ∀ (l : List Elevator) (acc : Option Elevator × WithTop ℚ),
      (∀ e ∈ l, ¬ eligible e dir) →
      l.foldl (scheduleStep rf dir ast fh sp) acc = acc := by
  intro l
  induction l with
  | nil =>
    intro acc _
    rfl
  | cons e l ih =>
    intro acc h
    rw [List.foldl_cons,
      scheduleStep_not_eligible rf dir ast fh sp acc e (h e (List.mem_cons_self e l))]
    exact ih acc (fun x hx => h x (List.mem_cons_of_mem e hx))

lemma foldl_fst_eligible (rf : ℤ) (dir : String) (ast fh sp : ℚ) :
    ∀ (l : List Elevator) (acc : Option Elevator × WithTop ℚ),
      (l.foldl (scheduleStep rf dir ast fh sp) acc).1 = acc.1 ∨
      ∃ b ∈ l, (l.foldl (scheduleStep rf dir ast fh sp) acc).1 = some b ∧
        eligible b dir := by
  intro l
  induction l with
  | nil =>
    intro acc
    exact Or.inl rfl
  | cons e l ih =>
    intro acc
    rw [List.foldl_cons]
    by_cases he : eligible e dir
    · by_cases hlt :
        ((e.estimated_arrival rf ast fh sp : WithTop ℚ) < acc.2)
      · have hstep : scheduleStep rf dir ast fh sp acc e =
            (some e, (e.estimated_arrival rf ast fh sp : WithTop ℚ)) := by
          simp [scheduleStep, he, hlt]
        rw [hstep]
        rcases ih (some e, (e.estimated_arrival rf ast fh sp : WithTop ℚ)) with
          h1 | ⟨b, hb, hbeq, hbel⟩
        · exact Or.inr ⟨e, List.mem_cons_self e l, h1, he⟩
        · exact Or.inr ⟨b, List.mem_cons_of_mem e hb, hbeq, hbel⟩
      · have hstep : scheduleStep rf dir ast fh sp acc e = acc := by
          simp [scheduleStep, he, hlt]
        rw [hstep]
        rcases ih acc with h1 | ⟨b, hb, hbeq, hbel⟩
        · exact Or.inl h1
        · exact Or.inr ⟨b, List.mem_cons_of_mem e hb, hbeq, hbel⟩
    · rw [scheduleStep_not_eligible rf dir ast fh sp acc e he]
      rcases ih acc with h1 | ⟨b, hb, hbeq, hbel⟩
      · exact Or.inl h1
      · exact Or.inr ⟨b, List.mem_cons_of_mem e hb, hbeq, hbel⟩

lemma schedule_elevator_st_foldl (rf : ℤ) (dir : String) (ast fh sp : ℚ) :
    ∀ (l : List Elevator) (acc₁ : Option Elevator × WithTop ℚ) (acc₂ : List Elevator),
      l.foldl
        (fun acc elev =>
          if eligible elev dir then
            let r := elev.estimated_arrival_st rf ast fh sp
            ((if (r.1 : WithTop ℚ) < acc.1.2 then (some r.2, (r.1 : WithTop ℚ))
              else acc.1), acc.2 ++ [r.2])
          else (acc.1, acc.2 ++ [elev]))
        (acc₁, acc₂) =
      (l.foldl (scheduleStep rf dir ast fh sp) acc₁, acc₂ ++ l) := by
  intro l
  induction l with
  | nil =>
    intro acc₁ acc₂
    simp
  | cons e l ih =>
    intro acc₁ acc₂
    rw [List.foldl_cons, List.foldl_cons]
    by_cases he : eligible e dir
    · have h1 : (if eligible e dir then
            let r := e.estimated_arrival_st rf ast fh sp
            ((if (r.1 : WithTop ℚ) < (acc₁, acc₂).1.2 then (some r.2, (r.1 : WithTop ℚ))
              else (acc₁, acc₂).1), (acc₁, acc₂).2 ++ [r.2])
          else ((acc₁, acc₂).1, (acc₁, acc₂).2 ++ [e])) =
          (scheduleStep rf dir ast fh sp acc₁ e, acc₂ ++ [e]) := by
        rw [if_pos he]
        show ((if ((e.estimated_arrival rf ast fh sp : ℚ) : WithTop ℚ) < acc₁.2 then
          (some e, ((e.estimated_arrival rf ast fh sp : ℚ) : WithTop ℚ)) else acc₁),
            acc₂ ++ [e]) = _
        rw [scheduleStep, if_pos he]
      rw [h1, ih]
      simp
    · have h1 : (if eligible e dir then
            let r := e.estimated_arrival_st rf ast fh sp
            ((if (r.1 : WithTop ℚ) < (acc₁, acc₂).1.2 then (some r.2, (r.1 : WithTop ℚ))
              else (acc₁, acc₂).1), (acc₁, acc₂).2 ++ [r.2])
          else ((acc₁, acc₂).1, (acc₁, acc₂).2 ++ [e])) =
          (scheduleStep rf dir ast fh sp acc₁ e, acc₂ ++ [e]) := by
        rw [if_neg he, scheduleStep, if_neg he]
      rw [h1, ih]
      simp

/-- Claim C1: whenever some elevator is eligible (idle or moving in the
requested direction), `schedule_elevator` returns an eligible elevator whose
estimated arrival is minimal among all eligible elevators, and every
eligible elevator listed before the returned one has a strictly larger
estimated arrival (first-encountered minimum wins). -/
theorem claims_C1 :
    ∀ (elevators : List Elevator) (rf : ℤ) (dir : String) (ast fh sp : ℚ)
      (e₀ : Elevator),
      (dir = "up" ∨ dir = "down") → 0 < fh → 0 < sp →
      e₀ ∈ elevators → eligible e₀ dir →
      ∃ b l1 l2,
        schedule_elevator elevators rf dir ast fh sp =
          (some b, (b.estimated_arrival rf ast fh sp : WithTop ℚ)) ∧
        eligible b dir ∧
        (∀ e ∈ elevators, eligible e dir →
          b.estimated_arrival rf ast fh sp ≤ e.estimated_arrival rf ast fh sp) ∧
        elevators = l1 ++ b :: l2 ∧
        (∀ e ∈ l1, eligible e dir →
          b.estimated_arrival rf ast fh sp < e.estimated_arrival rf ast fh sp) := by
  intro elevators rf dir ast fh sp e₀ _ _ _ hmem helig
  obtain ⟨b, l1, l2, heq, hdec, hb, hbefore, hall⟩ :=
    schedule_elevator_spec rf dir ast fh sp elevators ⟨e₀, hmem, helig⟩
  exact ⟨b, l1, l2, heq, hb, hall, hdec, hbefore⟩

/-- Witness for C1: two idle elevators at floor 1, request at floor 5 going
up (the spec's scheduling scenario). -/
theorem claims_C1_witness :
    ((("up" : String) = "up" ∨ ("up" : String) = "down") ∧ (0 : ℚ) < 3 ∧
      (0 : ℚ) < 3/2 ∧
      Elevator.init 1 10 1 ∈ [Elevator.init 1 10 1, Elevator.init 2 10 1] ∧
      eligible (Elevator.init 1 10 1) "up") ∧
    ∃ b l1 l2,
      schedule_elevator [Elevator.init 1 10 1, Elevator.init 2 10 1] 5 "up"
          10 3 (3/2) =
        (some b, (b.estimated_arrival 5 10 3 (3/2) : WithTop ℚ)) ∧
      eligible b "up" ∧
      (∀ e ∈ [Elevator.init 1 10 1, Elevator.init 2 10 1], eligible e "up" →
        b.estimated_arrival 5 10 3 (3/2) ≤ e.estimated_arrival 5 10 3 (3/2)) ∧
      [Elevator.init 1 10 1, Elevator.init 2 10 1] = l1 ++ b :: l2 ∧
      (∀ e ∈ l1, eligible e "up" →
        b.estimated_arrival 5 10 3 (3/2) < e.estimated_arrival 5 10 3 (3/2)) :=
  ⟨⟨Or.inl rfl, by norm_num, by norm_num, by simp, Or.inl rfl⟩,
    claims_C1 [Elevator.init 1 10 1, Elevator.init 2 10 1] 5 "up" 10 3 (3/2)
      (Elevator.init 1 10 1) (Or.inl rfl) (by norm_num) (by norm_num)
      (by simp) (Or.inl rfl)⟩

/-- Claim C6: when no elevator in the list is eligible, `schedule_elevator`
returns the sentinel `(none, ⊤)` (no elevator, infinite ETA); and it never
returns a non-eligible elevator — a returned elevator is always eligible
and drawn from the input list. -/
theorem claims_C6 :
    ∀ (elevators : List Elevator) (rf : ℤ) (dir : String) (ast fh sp : ℚ),
      ((∀ e ∈ elevators, ¬ eligible e dir) →
        schedule_elevator elevators rf dir ast fh sp = (none, (⊤ : WithTop ℚ))) ∧
      (∀ b : Elevator, (schedule_elevator elevators rf dir ast fh sp).1 = some b →
        eligible b dir ∧ b ∈ elevators) := by
  intro l rf dir ast fh sp
  constructor
  · intro h
    exact foldl_acc_of_not_eligible rf dir ast fh sp l (none, ⊤) h
  · intro b hb
    rcases foldl_fst_eligible rf dir ast fh sp l (none, ⊤) with h1 | ⟨b', hb', hbeq, hbel⟩
    · have h1' : (schedule_elevator l rf dir ast fh sp).1 = none := h1
      rw [hb] at h1'
      cases h1'
    · have hbeq' : (schedule_elevator l rf dir ast fh sp).1 = some b' := hbeq
      rw [hb] at hbeq'
      obtain rfl : b = b' := Option.some.inj hbeq'
      exact ⟨hbel, hb'⟩

/-- An elevator currently moving down past floor 3 toward floor 7's stop:
a concrete non-idle, downward elevator used to witness claim C6. -/
def movingDownElevator : Elevator :=
  { eid := 1
    capacity := 10
    current_floor := 3
    direction := -1
    passengers := 0
    stops := {7}
    idle := false }

/-- Witness for C6: a single elevator moving down is not eligible for an
"up" request, so the scheduler returns the sentinel. -/
theorem claims_C6_witness :
    (∀ e ∈ [movingDownElevator], ¬ eligible e "up") ∧
    schedule_elevator [movingDownElevator] 5 "up" 10 3 (3/2) =
      (none, (⊤ : WithTop ℚ)) :=
  ⟨by decide, (claims_C6 [movingDownElevator] 5 "up" 10 3 (3/2)).1 (by decide)⟩

/-- Claim C9: `schedule_elevator` mutates nothing — its state-transformer
translation returns every elevator of the input list unchanged (hence every
field of every elevator is as before the call), together with exactly the
selection the pure function computes. -/
theorem claims_C9 :
    ∀ (elevators : List Elevator) (rf : ℤ) (dir : String) (ast fh sp : ℚ),
      schedule_elevator_st elevators rf dir ast fh sp =
        (schedule_elevator elevators rf dir ast fh sp, elevators) := by
  intro l rf dir ast fh sp
  have h := schedule_elevator_st_foldl rf dir ast fh sp l (none, ⊤) []
  have h' : schedule_elevator_st l rf dir ast fh sp =
      (l.foldl (scheduleStep rf dir ast fh sp) (none, ⊤), [] ++ l) := h
  rw [h']
  rfl

end EMS
